import Mathlib

/-!
# Verification of the hootvoice dictation core

A shallow embedding of the chunking / transcription core of the repository:

* `src/src/audio/vad.rs` — the voice-activity detector (`VoiceActivityDetector`),
* `src/src/app/chunk_processor.rs` — the chunk dispatch pipeline
  (`ChunkProcessor`, `filter_noise_text`, `combine_results`),
* `src/src/core/transcriber.rs` — the watchdog loop's auto-stop triggers,
* `src/src/core/audio_io.rs` — the input-gain setter.

Modelling conventions, shared by all definitions below:

* Machine floats (`f32`) are modelled by `ℚ`.  Every float the embedded code
  computes is obtained by `+`, `-`, `*`, `/` and comparisons, except for the
  square root inside `calculate_rms`.  Every use of `calculate_rms s` in the
  embedded code is a comparison `calculate_rms s ⋈ t` against a nonnegative
  constant `t`; since `Real.sqrt` is strictly monotone on nonnegatives and
  both sides are nonnegative, `sqrt m ⋈ t ↔ m ⋈ t ^ 2`.  The model therefore
  works with the *mean square* (`calculate_rms_sq`) and compares it against
  squared thresholds.  This keeps every definition executable.
* Wall-clock reads (`Instant::now()`) become an explicit `now : ℚ` argument
  threaded into each call; `Instant::elapsed` becomes subtraction.
* Rust `String`/`&str` values are modelled as `List Char` (a Rust `String` is
  a sequence of chars in UTF-8; byte lengths are recovered via
  `Char.utf8Size`).
* The log lines the code prints (`println!`, the GUI logger) and the `reason`
  strings carried by `SplitDecision::Split` are human-readable diagnostics
  with no influence on control flow; the model elides them.
-/

set_option linter.unusedVariables false

namespace Hootvoice

/-! ## `src/src/audio/vad.rs` -/

set_option maxRecDepth 100000 in
/-- Embeds `VadStrategy` from `src/src/audio/vad.rs`. -/
inductive VadStrategy
  | Normal
  | Aggressive
deriving DecidableEq, Repr

/-- Embeds `VoiceActivityDetector` from `src/src/audio/vad.rs`.

Timestamps (`recording_started`, `chunk_started`, `silence_started`) are the
explicit-clock counterparts of the source's `Option<Instant>` fields.
`rms_buffer` holds the *squared* RMS of each recent frame (see the header
note on `calculate_rms`); likewise `silence_threshold` is stored as in the
source (unsquared) and every comparison against it squares it. -/
structure VoiceActivityDetector where
  sample_rate : ℕ
  rms_buffer : List ℚ
  silence_threshold : ℚ
  base_silence_duration : ℚ
  min_chunk_duration : ℚ
  max_chunk_duration : ℚ
  strategy : VadStrategy
  recording_started : Option ℚ
  chunk_started : Option ℚ
  silence_started : Option ℚ
  total_samples : ℕ
  chunk_samples : ℕ
  speech_frames : ℕ
  total_frames : ℕ
deriving DecidableEq, Repr

/-- Decision returned by `VoiceActivityDetector::process_audio`
(`SplitDecision` in `src/src/audio/vad.rs`).  The `reason` string carried by
`Split` is a log message (never inspected by callers) and is elided. -/
inductive SplitDecision
  | Continue
  | Split
  | Skip
deriving DecidableEq, Repr

/-- Embeds `calculate_rms` from `src/src/audio/vad.rs` (also duplicated in
`src/src/app/chunk_processor.rs`), without the final square root: this is
the mean of the squared samples.  `calculate_rms s = sqrt (calculate_rms_sq s)`;
see the header note for why comparisons are done on the square. -/
def calculate_rms_sq (samples : List ℚ) : ℚ :=
  if samples = [] then 0
  else (samples.map (fun s => s * s)).sum / (samples.length : ℚ)

namespace VoiceActivityDetector

/-- Embeds `VoiceActivityDetector::apply_strategy`. -/
def apply_strategy (v : VoiceActivityDetector) (strategy : VadStrategy) :
    VoiceActivityDetector :=
  match strategy with
  | .Normal =>
      { v with silence_threshold := 0.005, base_silence_duration := 2.0,
               min_chunk_duration := 3.0, max_chunk_duration := 30.0 }
  | .Aggressive =>
      { v with silence_threshold := 0.007, base_silence_duration := 1.0,
               min_chunk_duration := 1.5, max_chunk_duration := 25.0 }

/-- Embeds `VoiceActivityDetector::new_with_strategy`. -/
def new_with_strategy (sample_rate : ℕ) (strategy : VadStrategy) :
    VoiceActivityDetector :=
  apply_strategy
    { sample_rate := sample_rate
      rms_buffer := []
      silence_threshold := 0.005
      base_silence_duration := 2.0
      min_chunk_duration := 3.0
      max_chunk_duration := 30.0
      strategy := strategy
      recording_started := none
      chunk_started := none
      silence_started := none
      total_samples := 0
      chunk_samples := 0
      speech_frames := 0
      total_frames := 0 } strategy

/-- Embeds `VoiceActivityDetector::start_recording` (at explicit time `now`). -/
def start_recording (v : VoiceActivityDetector) (now : ℚ) :
    VoiceActivityDetector :=
  { v with recording_started := some now
           chunk_started := some now
           chunk_samples := 0
           speech_frames := 0
           total_frames := 0 }

/-- Embeds `VoiceActivityDetector::get_dynamic_silence_threshold`. -/
def get_dynamic_silence_threshold (v : VoiceActivityDetector)
    (current_duration : ℚ) : ℚ :=
  match v.strategy with
  | .Normal =>
      if current_duration < 8.0 then v.base_silence_duration
      else if current_duration < 15.0 then 1.0
      else if current_duration < 25.0 then 0.5
      else 0.3
  | .Aggressive =>
      if current_duration < 6.0 then v.base_silence_duration
      else if current_duration < 12.0 then 0.5
      else if current_duration < 20.0 then 0.3
      else 0.2

/-- Embeds `VoiceActivityDetector::contains_speech`. -/
def contains_speech (v : VoiceActivityDetector) : Bool :=
  if v.total_frames = 0 then false
  else decide ((v.speech_frames : ℚ) / (v.total_frames : ℚ) > 0.1)

/-- Embeds `VoiceActivityDetector::reset_chunk` (at explicit time `now`). -/
def reset_chunk (v : VoiceActivityDetector) (now : ℚ) :
    VoiceActivityDetector :=
  { v with chunk_started := some now
           silence_started := none
           chunk_samples := 0
           speech_frames := 0
           total_frames := 0
           rms_buffer := [] }

/-- Embeds `VoiceActivityDetector::process_audio`.

The source reads the sample slice only through `samples.len()` and
`calculate_rms(samples)`, so the model takes the frame as its length `len`
and the squared RMS `rmsSq = calculate_rms_sq samples` (see the header
note).  `now` is the value `Instant::now()` would return during this call,
so `silence_start.elapsed()` is `now - silence_start`. -/
def process_audio (v₀ : VoiceActivityDetector) (now : ℚ) (len : ℕ)
    (rmsSq : ℚ) : SplitDecision × VoiceActivityDetector :=
  let v := if v₀.recording_started.isNone then v₀.start_recording now else v₀
  let v := { v with total_samples := v.total_samples + len
                    chunk_samples := v.chunk_samples + len
                    total_frames := v.total_frames + 1 }
  let buf := v.rms_buffer ++ [rmsSq]
  let v := { v with rms_buffer := if buf.length > 100 then buf.drop 1 else buf }
  let v := if rmsSq > v.silence_threshold ^ 2 then
             { v with speech_frames := v.speech_frames + 1 }
           else v
  let chunk_duration : ℚ := (v.chunk_samples : ℚ) / (v.sample_rate : ℚ)
  let required_silence_duration := v.get_dynamic_silence_threshold chunk_duration
  let is_silent := rmsSq < v.silence_threshold ^ 2
  if is_silent then
    let v := if v.silence_started.isNone then
               { v with silence_started := some now }
             else v
    let silence_start := v.silence_started.getD now
    let silence_duration := now - silence_start
    if chunk_duration ≥ v.min_chunk_duration ∧
        silence_duration ≥ required_silence_duration then
      if v.contains_speech then (.Split, v.reset_chunk now)
      else (.Skip, v.reset_chunk now)
    else if chunk_duration ≥ v.max_chunk_duration then (.Split, v.reset_chunk now)
    else (.Continue, v)
  else
    let v := { v with silence_started := none }
    if chunk_duration ≥ v.max_chunk_duration then (.Split, v.reset_chunk now)
    else (.Continue, v)

end VoiceActivityDetector

/-! ## Text helpers from `src/src/app/chunk_processor.rs`

Rust strings are modelled as `List Char`; `str::len` (a byte count) is
`byteLen` below.  `char::is_whitespace` is Unicode White_Space; the model
uses `Char.isWhitespace` (its ASCII fragment), and every string a claim
evaluates is ASCII. -/

/-- Total UTF-8 byte length of a string, i.e. Rust `str::len`. -/
def byteLen (s : List Char) : ℕ := (s.map Char.utf8Size).sum

/-- Rust `str::trim`: remove leading and trailing whitespace. -/
def trim (s : List Char) : List Char :=
  ((s.dropWhile Char.isWhitespace).reverse.dropWhile Char.isWhitespace).reverse

/-- Rust `char::is_ascii_punctuation`: the four ASCII punctuation blocks. -/
def is_ascii_punctuation (c : Char) : Bool :=
  (0x21 ≤ c.toNat ∧ c.toNat ≤ 0x2F) ∨ (0x3A ≤ c.toNat ∧ c.toNat ≤ 0x40) ∨
    (0x5B ≤ c.toNat ∧ c.toNat ≤ 0x60) ∨ (0x7B ≤ c.toNat ∧ c.toNat ≤ 0x7E)

/-- Embeds `char::is_punctuation` from the `unicode_categories` crate: membership in
the Unicode general category P.  The model covers the ASCII range exactly
(listed below by codepoint); on ASCII, category P is a subset of
`is_ascii_punctuation`, so the disjunction in `is_punct_or_space_only` is
unchanged by restricting this test to ASCII.  Non-ASCII codepoints map to
`false` (every string the claims evaluate is ASCII). -/
def is_punctuation (c : Char) : Bool :=
  [0x21, 0x22, 0x23, 0x25, 0x26, 0x27, 0x28, 0x29, 0x2A, 0x2C, 0x2D, 0x2E,
    0x2F, 0x3A, 0x3B, 0x3F, 0x40, 0x5B, 0x5C, 0x5D, 0x5F, 0x7B, 0x7D].contains
    c.toNat

/-- Embeds `is_punct_or_space_only` from `src/src/app/chunk_processor.rs`. -/
def is_punct_or_space_only (s : List Char) : Bool :=
  s.all fun c => c.isWhitespace || is_ascii_punctuation c || is_punctuation c

/-- Rust `str::replace(pat, "")` (as used in `filter_noise_text`): remove
every non-overlapping occurrence of `pat`, scanning left to right and
resuming after each match.  (`replace` with an empty pattern returns the
string unchanged in this remove-only use; the source's patterns are all
nonempty.) -/
def remove_pattern (pat : List Char) : List Char → List Char
  | [] => []
  | c :: rest =>
    if hp : pat ≠ [] ∧ pat.isPrefixOf (c :: rest) then
      remove_pattern pat ((c :: rest).drop pat.length)
    else
      c :: remove_pattern pat rest
termination_by s => s.length
decreasing_by
  · simp only [List.length_drop, List.length_cons]
    exact Nat.sub_lt (Nat.succ_pos _) (List.length_pos.mpr hp.1)
  · simp

/-- The `noise_patterns` array in `filter_noise_text`. -/
def noise_patterns : List (List Char) :=
  ["(music)".data, "(sound)".data, "(applause)".data, "(laugh)".data,
    "(cough)".data, "[music]".data, "[sound]".data, "[applause]".data,
    "[laugh]".data, "[cough]".data, "♪".data]

/-- Embeds `filter_noise_text` from `src/src/app/chunk_processor.rs`.  (The source
trims twice in a row — `filtered.trim().to_string()` then `filtered.trim()` —
which is one trim.) -/
def filter_noise_text (text : List Char) : List Char :=
  let filtered := noise_patterns.foldl (fun acc pattern => remove_pattern pattern acc) text
  let trimmed := trim filtered
  if is_punct_or_space_only trimmed then [] else trimmed

/-! ## `src/src/app/chunk_processor.rs` — the chunk dispatch pipeline -/

/-- Embeds `AudioChunk` from `src/src/app/chunk_processor.rs`. -/
structure AudioChunk where
  id : ℕ
  samples : List ℚ
  start_time : ℚ
  duration : ℚ
deriving DecidableEq, Repr

/-- Embeds `ChunkResult` from `src/src/app/chunk_processor.rs`.  `processing_time`
is a wall-clock measurement of the inference call; the model records `0`
(nothing reads it). -/
structure ChunkResult where
  id : ℕ
  text : List Char
  start_time : ℚ
  end_time : ℚ
  processing_time : ℚ
deriving DecidableEq, Repr

/-- Embeds `ChunkProcessor` from `src/src/app/chunk_processor.rs`.

The inference context `ctx : Arc<WhisperContext>` and
`optimization_params` configure the external whisper engine and are elided
(the engine itself is the oracle argument of `finish`).  The mpsc channel
is modelled by `tx`/`rx` presence flags plus `queue`, the FIFO list of
chunks sent and not yet received; the single worker thread consumes it in
order when `finish` joins it.  `worker_handle` records whether
`start_worker` has spawned the worker. -/
structure ChunkProcessor where
  vad : VoiceActivityDetector
  chunks : List AudioChunk
  results : List ChunkResult
  tx : Option Unit
  rx : Option Unit
  queue : List AudioChunk
  worker_handle : Option Unit
  next_chunk_id : ℕ
  current_buffer : List ℚ
  chunk_start_time : ℚ
  total_samples_processed : ℕ
  sample_rate : ℕ
  language : Option (List Char)
deriving DecidableEq, Repr

namespace ChunkProcessor

/-- Embeds `ChunkProcessor::new`. -/
def new (sample_rate : ℕ) (language : Option (List Char))
    (vad_strategy : VadStrategy) : ChunkProcessor :=
  { vad := VoiceActivityDetector.new_with_strategy sample_rate vad_strategy
    chunks := []
    results := []
    tx := some ()
    rx := some ()
    queue := []
    worker_handle := none
    next_chunk_id := 0
    current_buffer := []
    chunk_start_time := 0.0
    total_samples_processed := 0
    sample_rate := sample_rate
    language := language }

/-- Embeds `ChunkProcessor::start_worker`.  `rx.take().expect("Receiver already
taken")` panics when the receiver is gone; the model returns that panic as
`Except.error`.  On success the worker thread is spawned (`worker_handle`)
and `vad.start_recording()` runs (at explicit time `now`). -/
def start_worker (cp : ChunkProcessor) (now : ℚ) :
    Except (List Char) ChunkProcessor :=
  match cp.rx with
  | none => .error "Receiver already taken".data
  | some _ =>
      .ok { cp with rx := none
                    worker_handle := some ()
                    vad := cp.vad.start_recording now }

/-- Embeds `ChunkProcessor::reset_buffer`. -/
def reset_buffer (cp : ChunkProcessor) : ChunkProcessor :=
  { cp with chunk_start_time :=
              (cp.total_samples_processed : ℚ) / (cp.sample_rate : ℚ)
            current_buffer := [] }

/-- Embeds `ChunkProcessor::create_and_send_chunk` (the `reason` argument is a log
string, elided).  The chunk goes over the channel only while the sender is
alive (`if let Some(tx) = &self.tx`). -/
def create_and_send_chunk (cp : ChunkProcessor) (sample_rate : ℕ) :
    ChunkProcessor :=
  if cp.current_buffer = [] then cp
  else
    let chunk : AudioChunk :=
      { id := cp.next_chunk_id
        samples := cp.current_buffer
        start_time := cp.chunk_start_time
        duration := (cp.current_buffer.length : ℚ) / (sample_rate : ℚ) }
    let cp := match cp.tx with
      | some _ => { cp with queue := cp.queue ++ [chunk] }
      | none => cp
    let cp := { cp with chunks := cp.chunks ++ [chunk]
                        next_chunk_id := cp.next_chunk_id + 1 }
    cp.reset_buffer

/-- Embeds `ChunkProcessor::process_audio`.  The source returns `()` after
dispatching on the VAD decision; the model also returns the decision so
that traces can be stated.  `now` is threaded to the VAD (see
`VoiceActivityDetector.process_audio`). -/
def process_audio (cp : ChunkProcessor) (now : ℚ) (samples : List ℚ)
    (sample_rate : ℕ) : SplitDecision × ChunkProcessor :=
  let cp := { cp with current_buffer := cp.current_buffer ++ samples
                      total_samples_processed :=
                        cp.total_samples_processed + samples.length }
  let r := cp.vad.process_audio now samples.length (calculate_rms_sq samples)
  let cp := { cp with vad := r.2 }
  match r.1 with
  | .Split => (.Split, cp.create_and_send_chunk sample_rate)
  | .Skip => (.Skip, cp.reset_buffer)
  | .Continue => (.Continue, cp)

end ChunkProcessor

/-! ## `combine_results` and its overlap merge -/

/-- Rust `str::contains(pat)` (as used by `merge_with_overlap`): `pat`
occurs as a contiguous substring of `s`. -/
def str_contains (s pat : List Char) : Bool :=
  match s with
  | [] => pat.isEmpty
  | _ :: rest => pat.isPrefixOf s || str_contains rest pat

/-- The scan inside `merge_with_overlap` (`src/src/app/chunk_processor.rs`).

The source collects `cuts`, the byte offsets of character boundaries of
`next_trim` from `char_indices` plus the total byte length — i.e. exactly
`byteLen (nt.take k)` for `k = 0, …, nt.length`, strictly increasing in
`k` — and walks them in decreasing order, skipping offset `0` and offsets
above `max_k`, returning the first offset whose prefix slice is a suffix of
`acc` (`acc.ends_with(&next_trim[..i])`), or `0` if none qualifies.  Since
byte offsets of boundaries are in order-preserving bijection with character
counts, the model walks the count `k` down from `nt.length`; it returns the
count whose byte offset the source would return. -/
def find_overlap (acc nt : List Char) (max_k : ℕ) : ℕ → ℕ
  | 0 => 0
  | k + 1 =>
    if byteLen (nt.take (k + 1)) ≤ max_k ∧ (nt.take (k + 1)).isSuffixOf acc then
      k + 1
    else find_overlap acc nt max_k k

/-- Embeds `merge_with_overlap` (the local function inside
`ChunkProcessor::combine_results`).  `acc.contains(next_trim)` is substring
containment; `next_trim[best_k..]` drops the overlap (the byte offset
`best_k` is the boundary after `find_overlap … ` characters, so the model
drops that many characters). -/
def merge_with_overlap (acc : List Char) (next : List Char) : List Char :=
  let next_trim := trim next
  if next_trim = [] then acc
  else if str_contains acc next_trim then acc
  else
    let max_k := min (byteLen acc) (min (byteLen next_trim) 64)
    let best_k := find_overlap acc next_trim max_k next_trim.length
    acc ++ next_trim.drop best_k

/-- Embeds `ChunkProcessor::combine_results`. -/
def combine_results (results : List ChunkResult) : List Char :=
  results.foldl
    (fun acc r =>
      let t := trim r.text
      if t = [] then acc else merge_with_overlap acc t)
    []

/-! ## The worker loop and `finish` -/

/-- Insertion of one `ChunkResult` preserving `id` order — helper for
`sort_by_id`. -/
def insert_by_id (r : ChunkResult) : List ChunkResult → List ChunkResult
  | [] => [r]
  | x :: xs => if r.id < x.id then r :: x :: xs else x :: insert_by_id r xs

/-- Embeds `results.sort_by_key(|r| r.id)` in the worker loop: a stable sort by
ascending `id`, modelled as insertion sort (`sort_by_id_sorted` below proves
the output sorted, which is the only property the source relies on). -/
def sort_by_id : List ChunkResult → List ChunkResult
  | [] => []
  | x :: xs => insert_by_id x (sort_by_id xs)

/-- One iteration of the worker loop spawned by
`ChunkProcessor::start_worker`: receive `chunk`, run
`transcribe_with_state` (the external whisper engine — modelled by the
oracle `transcribe`, `none` = `Err`), filter the text, and on non-empty
filtered text push a `ChunkResult` and re-sort by id.  An inference error
or empty filtered text leaves the result list unchanged. -/
def worker_step (transcribe : List ℚ → Option (List Char))
    (results : List ChunkResult) (chunk : AudioChunk) : List ChunkResult :=
  match transcribe chunk.samples with
  | none => results
  | some raw =>
    if filter_noise_text raw = [] then results
    else
      sort_by_id (results ++
        [{ id := chunk.id
           text := filter_noise_text raw
           start_time := chunk.start_time
           end_time := chunk.start_time + chunk.duration
           processing_time := 0 }])

namespace ChunkProcessor

/-- The first block of `ChunkProcessor::finish`: send the remaining buffer
as a final chunk if it is non-empty and its RMS clears the `0.005` noise
floor (`calculate_rms(&self.current_buffer) > 0.005`, compared on squares —
see the header note). -/
def finishFlush (cp : ChunkProcessor) (sample_rate : ℕ) : ChunkProcessor :=
  if cp.current_buffer ≠ [] then
    if calculate_rms_sq cp.current_buffer > (0.005 : ℚ) ^ 2 then
      cp.create_and_send_chunk sample_rate
    else cp
  else cp

/-- Embeds `ChunkProcessor::finish`: flush the remaining buffer (`finishFlush`),
drop the sender (closing the channel), join the worker — which in the pure
model means the worker consumes the whole queue in FIFO order — and return
a copy of the result collection. -/
def finish (cp : ChunkProcessor) (transcribe : List ℚ → Option (List Char))
    (sample_rate : ℕ) : List ChunkResult × ChunkProcessor :=
  let cp := cp.finishFlush sample_rate
  let cp := { cp with tx := none }
  let final := cp.queue.foldl (worker_step transcribe) cp.results
  (final, { cp with queue := [], results := final, worker_handle := none })

end ChunkProcessor

/-! ## `src/src/core/transcriber.rs` — the watchdog loop

`Transcriber::start_processing` spawns a loop that, every 100 ms, drains
new audio into the processor and checks two auto-stop triggers.  The model
captures one loop iteration that passed the interval check
(`last_tick.elapsed() >= process_interval`) as `watchdog_tick`, taking the
drained delta (`pcm`, `none` when the buffer grew by nothing), the clock
`now`, and the session's elapsed wall time.  The mutex acquisitions always
succeed in the model.  The `on_auto_stop` callback invocations are counted
in the ghost field `auto_stop_callbacks`. -/

/-- Input of one watchdog iteration. -/
structure WatchdogTick where
  now : ℚ
  pcm : Option (List ℚ)
  elapsed : ℚ
deriving Repr

/-- Mutable state of the watchdog loop in
`Transcriber::start_processing`. -/
structure WatchdogState where
  stop : Bool
  auto_stop_triggered : Bool
  global_silence_started : Option ℚ
  auto_stop_callbacks : ℕ
deriving DecidableEq, Repr

/-- The locals initialised before the loop. -/
def watchdog_init : WatchdogState :=
  { stop := false
    auto_stop_triggered := false
    global_silence_started := none
    auto_stop_callbacks := 0 }

/-- The strategy-dependent `silence_threshold` local of the watchdog. -/
def watchdog_silence_threshold : VadStrategy → ℚ
  | .Aggressive => 0.007
  | .Normal => 0.005

/-- The shared body of both auto-stop triggers: set the one-shot guard
`auto_stop_triggered`, set the loop's stop flag, and invoke the
`on_auto_stop` callback (counted in `auto_stop_callbacks`). -/
def watchdog_fire (s : WatchdogState) : WatchdogState :=
  { s with auto_stop_triggered := true, stop := true
           auto_stop_callbacks := s.auto_stop_callbacks + 1 }

/-- The silence-timer update inside the silence trigger: the source
computes `rms = sqrt(max(sum_sq / max(len,1), 0))` and compares
`rms < silence_threshold`; the model compares the squares (header note).
A silent delta starts the session-wide silence timer if it is not already
running; a non-silent delta clears it. -/
def watchdog_update_silence (silence_threshold : ℚ) (pcm : List ℚ)
    (s : WatchdogState) (nowt : ℚ) : WatchdogState :=
  if max ((pcm.map fun x => x * x).sum / (max pcm.length 1 : ℚ)) 0 <
      silence_threshold ^ 2 then
    if s.global_silence_started.isNone then
      { s with global_silence_started := some nowt }
    else s
  else { s with global_silence_started := none }

/-- The silence trigger of one watchdog iteration: runs only when a delta
was drained (`t.pcm = some _`), only while the one-shot guard is down and
auto-stop-on-silence is enabled; fires once the running silence timer
reaches `auto_stop_silence_secs`. -/
def watchdog_silence_trigger (auto_stop_silence_secs silence_threshold : ℚ)
    (s : WatchdogState) (t : WatchdogTick) : WatchdogState :=
  match t.pcm with
  | none => s
  | some pcm =>
    if ¬s.auto_stop_triggered ∧ auto_stop_silence_secs > 0 then
      match (watchdog_update_silence silence_threshold pcm s t.now).global_silence_started with
      | none => watchdog_update_silence silence_threshold pcm s t.now
      | some st =>
        if t.now - st ≥ auto_stop_silence_secs then
          watchdog_fire (watchdog_update_silence silence_threshold pcm s t.now)
        else watchdog_update_silence silence_threshold pcm s t.now
    else s

/-- The max-recording-duration trigger, run after the silence trigger in
the same iteration and reading the `auto_stop_triggered` flag the silence
trigger may have just set. -/
def watchdog_max_trigger (max_record_secs : ℚ) (s : WatchdogState)
    (t : WatchdogTick) : WatchdogState :=
  if ¬s.auto_stop_triggered ∧ max_record_secs > 0 then
    if t.elapsed ≥ max_record_secs then watchdog_fire s else s
  else s

/-- One iteration of the watchdog loop (the body guarded by the 100 ms
interval check).  The loop head's `if *stop { break }` is the initial
test; then the silence trigger, then the max-duration trigger. -/
def watchdog_tick (auto_stop_silence_secs max_record_secs silence_threshold : ℚ)
    (s : WatchdogState) (t : WatchdogTick) : WatchdogState :=
  if s.stop then s
  else
    watchdog_max_trigger max_record_secs
      (watchdog_silence_trigger auto_stop_silence_secs silence_threshold s t) t

/-- The watchdog loop over a list of iterations. -/
def watchdog_run (auto_stop_silence_secs max_record_secs silence_threshold : ℚ)
    (ticks : List WatchdogTick) (s : WatchdogState) : WatchdogState :=
  ticks.foldl (watchdog_tick auto_stop_silence_secs max_record_secs silence_threshold) s

/-! ## `src/src/core/audio_io.rs` — the input gain -/

/-- Embeds `AudioIO::set_input_gain`: the value stored into the `input_gain`
atomic (as f32 bits) is `gain.max(0.0)`.  Every capture callback loads it
and multiplies each conditioned sample by it. -/
def set_input_gain (gain : ℚ) : ℚ := max gain 0

/-! ## Session harness, invariants and example states used by the theorems -/

namespace ChunkProcessor

/-- A recorded session seen by the processor: the watchdog-drain loop calls
`process_audio` once per tick with the drained delta; each input is the pair
(wall-clock time of the call, drained samples). -/
def run (cp : ChunkProcessor) (sample_rate : ℕ) :
    List (ℚ × List ℚ) → List SplitDecision × ChunkProcessor
  | [] => ([], cp)
  | (t, samples) :: rest =>
    let r := cp.process_audio t samples sample_rate
    let r' := r.2.run sample_rate rest
    (r.1 :: r'.1, r'.2)

end ChunkProcessor

/-- Chunk-boundary bookkeeping invariant of `ChunkProcessor`: the start time
of the chunk in progress is the processed-total time minus the buffered
time, created chunks are ordered with `start_time + duration ≤` the next
start, and the last created chunk ends no later than the chunk in
progress starts. -/
def TilingInv (cp : ChunkProcessor) : Prop :=
  cp.chunk_start_time =
      ((cp.total_samples_processed : ℚ) - (cp.current_buffer.length : ℚ)) /
        (cp.sample_rate : ℚ) ∧
  List.Chain' (fun a b => a.start_time + a.duration ≤ b.start_time) cp.chunks ∧
  ∀ c ∈ cp.chunks.getLast?, c.start_time + c.duration ≤ cp.chunk_start_time

/-- The exact-tiling variant of `TilingInv`: holds as long as no `Skip`
has discarded buffered audio. -/
def TilingInvEq (cp : ChunkProcessor) : Prop :=
  cp.chunk_start_time =
      ((cp.total_samples_processed : ℚ) - (cp.current_buffer.length : ℚ)) /
        (cp.sample_rate : ℚ) ∧
  List.Chain' (fun a b => a.start_time + a.duration = b.start_time) cp.chunks ∧
  ∀ c ∈ cp.chunks.getLast?, c.start_time + c.duration = cp.chunk_start_time

/-- The one-shot-guard invariant of the watchdog loop: while the trigger
flag is down no callback has fired, and never more than one fires. -/
def WatchdogInv (s : WatchdogState) : Prop :=
  (s.auto_stop_triggered = false → s.auto_stop_callbacks = 0) ∧
  s.auto_stop_callbacks ≤ 1

/-- A Normal-strategy VAD (1 sample/s) mid-chunk: 10 s accumulated, 5 of 9
frames speech, silence running since time 0. -/
def vadC1state : VoiceActivityDetector :=
  { VoiceActivityDetector.new_with_strategy 1 .Normal with
    recording_started := some 0
    silence_started := some 0
    chunk_samples := 10
    speech_frames := 5
    total_frames := 9 }

/-- The state of a Normal-strategy VAD at 16 kHz after eleven frames:
29 s at RMS exactly the silence threshold (neither speech nor silence),
then ten 0.05 s silent frames 10 ms apart (too little accumulated silence
to fire the silence branch). -/
def vadC2state : VoiceActivityDetector :=
  (List.range 10).foldl
    (fun v i => (v.process_audio (0.1 + (i : ℚ) / 100) 800 0).2)
    ((VoiceActivityDetector.new_with_strategy 16000 .Normal).process_audio 0
        464000 ((1 / 200 : ℚ) ^ 2)).2

/-- A Normal-strategy VAD (1 sample/s) that has been recording a loud
30 s chunk: the next frame reaches the maximum duration. -/
def vadC2wit : VoiceActivityDetector :=
  { VoiceActivityDetector.new_with_strategy 1 .Normal with
    recording_started := some 0
    chunk_samples := 30 }

/-- Session refuting exact tiling across a Skip (sample rate 1 sample/s):
a 6 s chunk is split, 3 s of silence-only audio is skipped, then another
6 s chunk is split. -/
def tilingCounterInputs : List (ℚ × List ℚ) :=
  [(0, List.replicate 4 (1 / 20)), (0, [0]), (2, [0]), (10, [0, 0]), (13, [0]),
    (20, List.replicate 4 (1 / 20)), (21, [0]), (24, [0])]

/-- A freshly constructed processor (1 sample/s) holding one buffered
sample of amplitude 1/10, whose mean square clears the noise floor. -/
def cpC7 : ChunkProcessor :=
  { ChunkProcessor.new 1 none .Normal with current_buffer := [1/10] }

/-! ## Theorems -/

set_option maxRecDepth 100000

lemma tiling_reset (cp : ChunkProcessor) (hq : (0 : ℚ) < (cp.sample_rate : ℚ))
    (h : TilingInv cp) : TilingInv cp.reset_buffer := by
  obtain ⟨i1, i2, i3⟩ := h
  refine ⟨by simp [ChunkProcessor.reset_buffer],
    by simpa [ChunkProcessor.reset_buffer] using i2, ?_⟩
  intro c hc
  have := i3 c (by simpa [ChunkProcessor.reset_buffer] using hc)
  have hle : ((cp.total_samples_processed : ℚ) - (cp.current_buffer.length : ℚ)) /
        (cp.sample_rate : ℚ) ≤ (cp.total_samples_processed : ℚ) / (cp.sample_rate : ℚ) := by
    exact (div_le_div_iff_of_pos_right hq).mpr (sub_le_self _ (by positivity))
  simp only [ChunkProcessor.reset_buffer] at *
  exact le_trans (i1 ▸ this) hle

lemma tiling_extend (cp : ChunkProcessor) (samples : List ℚ)
    (h : TilingInv cp) :
    TilingInv { cp with current_buffer := cp.current_buffer ++ samples,
                        total_samples_processed :=
                          cp.total_samples_processed + samples.length } := by
  obtain ⟨i1, i2, i3⟩ := h
  refine ⟨?_, i2, i3⟩
  simpa [sub_eq_iff_eq_add] using by linarith [i1]

lemma tiling_extend_eq (cp : ChunkProcessor) (samples : List ℚ)
    (h : TilingInvEq cp) :
    TilingInvEq { cp with current_buffer := cp.current_buffer ++ samples,
                          total_samples_processed :=
                            cp.total_samples_processed + samples.length } := by
  obtain ⟨i1, i2, i3⟩ := h
  refine ⟨?_, i2, i3⟩
  simpa [sub_eq_iff_eq_add] using by linarith [i1]

lemma tiling_create (cp : ChunkProcessor)
    (_hq : (0 : ℚ) < (cp.sample_rate : ℚ)) (h : TilingInv cp) :
    TilingInv (cp.create_and_send_chunk cp.sample_rate) := by
  obtain ⟨i1, i2, i3⟩ := h
  unfold ChunkProcessor.create_and_send_chunk
  by_cases hb : cp.current_buffer = []
  · simpa [hb] using ⟨i1, i2, i3⟩
  · have hend : cp.chunk_start_time + (cp.current_buffer.length : ℚ) / (cp.sample_rate : ℚ)
        = (cp.total_samples_processed : ℚ) / (cp.sample_rate : ℚ) := by
      rw [i1, div_add_div_same, sub_add_cancel]
    cases htx : cp.tx with
    | none =>
      refine ⟨by simp [hb, htx, ChunkProcessor.reset_buffer], ?_, ?_⟩
      · simp only [hb, htx, if_false, ChunkProcessor.reset_buffer]
        rw [List.chain'_append]
        refine ⟨i2, List.chain'_singleton _, ?_⟩
        intro x hx y hy
        simp only [List.head?_cons, Option.mem_def, Option.some.injEq] at hy
        subst hy
        exact i3 x hx
      · intro c hc
        simp only [hb, htx, if_false, ChunkProcessor.reset_buffer,
          List.getLast?_concat, Option.mem_def, Option.some.injEq] at hc ⊢
        subst hc
        simpa using le_of_eq hend
    | some u =>
      refine ⟨by simp [hb, htx, ChunkProcessor.reset_buffer], ?_, ?_⟩
      · simp only [hb, htx, if_false, ChunkProcessor.reset_buffer]
        rw [List.chain'_append]
        refine ⟨i2, List.chain'_singleton _, ?_⟩
        intro x hx y hy
        simp only [List.head?_cons, Option.mem_def, Option.some.injEq] at hy
        subst hy
        exact i3 x hx
      · intro c hc
        simp only [hb, htx, if_false, ChunkProcessor.reset_buffer,
          List.getLast?_concat, Option.mem_def, Option.some.injEq] at hc ⊢
        subst hc
        simpa using le_of_eq hend

lemma tiling_create_eq (cp : ChunkProcessor)
    (h : TilingInvEq cp) :
    TilingInvEq (cp.create_and_send_chunk cp.sample_rate) := by
  obtain ⟨i1, i2, i3⟩ := h
  unfold ChunkProcessor.create_and_send_chunk
  by_cases hb : cp.current_buffer = []
  · simpa [hb] using ⟨i1, i2, i3⟩
  · have hend : cp.chunk_start_time + (cp.current_buffer.length : ℚ) / (cp.sample_rate : ℚ)
        = (cp.total_samples_processed : ℚ) / (cp.sample_rate : ℚ) := by
      rw [i1, div_add_div_same, sub_add_cancel]
    cases htx : cp.tx with
    | none =>
      refine ⟨by simp [hb, htx, ChunkProcessor.reset_buffer], ?_, ?_⟩
      · simp only [hb, htx, if_false, ChunkProcessor.reset_buffer]
        rw [List.chain'_append]
        refine ⟨i2, List.chain'_singleton _, ?_⟩
        intro x hx y hy
        simp only [List.head?_cons, Option.mem_def, Option.some.injEq] at hy
        subst hy
        exact i3 x hx
      · intro c hc
        simp only [hb, htx, if_false, ChunkProcessor.reset_buffer,
          List.getLast?_concat, Option.mem_def, Option.some.injEq] at hc ⊢
        subst hc
        simpa using hend
    | some u =>
      refine ⟨by simp [hb, htx, ChunkProcessor.reset_buffer], ?_, ?_⟩
      · simp only [hb, htx, if_false, ChunkProcessor.reset_buffer]
        rw [List.chain'_append]
        refine ⟨i2, List.chain'_singleton _, ?_⟩
        intro x hx y hy
        simp only [List.head?_cons, Option.mem_def, Option.some.injEq] at hy
        subst hy
        exact i3 x hx
      · intro c hc
        simp only [hb, htx, if_false, ChunkProcessor.reset_buffer,
          List.getLast?_concat, Option.mem_def, Option.some.injEq] at hc ⊢
        subst hc
        simpa using hend

lemma create_and_send_chunk_sample_rate (cp : ChunkProcessor) (sr : ℕ) :
    (cp.create_and_send_chunk sr).sample_rate = cp.sample_rate := by
  by_cases hb : cp.current_buffer = []
  · simp [ChunkProcessor.create_and_send_chunk, hb]
  · cases htx : cp.tx <;>
      simp [ChunkProcessor.create_and_send_chunk, hb, htx, ChunkProcessor.reset_buffer]

lemma tiling_step (cp : ChunkProcessor) (now : ℚ) (samples : List ℚ)
    (hsr : 0 < cp.sample_rate) :
    (cp.process_audio now samples cp.sample_rate).2.sample_rate = cp.sample_rate ∧
    (TilingInv cp → TilingInv (cp.process_audio now samples cp.sample_rate).2) ∧
    (TilingInvEq cp →
      (cp.process_audio now samples cp.sample_rate).1 ≠ SplitDecision.Skip →
      TilingInvEq (cp.process_audio now samples cp.sample_rate).2) := by
  have hq : (0 : ℚ) < (cp.sample_rate : ℚ) := by exact_mod_cast hsr
  simp only [ChunkProcessor.process_audio]
  cases hd : (cp.vad.process_audio now samples.length (calculate_rms_sq samples)).1 with
  | Continue =>
    simp only [hd]
    exact ⟨trivial, fun h => tiling_extend cp samples h,
      fun h _ => tiling_extend_eq cp samples h⟩
  | Split =>
    simp only [hd]
    exact ⟨create_and_send_chunk_sample_rate _ _,
      fun h => tiling_create _ hq (tiling_extend cp samples h),
      fun h _ => tiling_create_eq _ (tiling_extend_eq cp samples h)⟩
  | Skip =>
    simp only [hd]
    exact ⟨rfl, fun h => tiling_reset _ hq (tiling_extend cp samples h),
      fun _ hne => absurd rfl hne⟩

lemma tiling_run (sr : ℕ) (hsr : 0 < sr) (inputs : List (ℚ × List ℚ)) :
    ∀ cp : ChunkProcessor, cp.sample_rate = sr → TilingInv cp →
      TilingInv (cp.run sr inputs).2 ∧
      (TilingInvEq cp → SplitDecision.Skip ∉ (cp.run sr inputs).1 →
        TilingInvEq (cp.run sr inputs).2) := by
  induction inputs with
  | nil => exact fun cp _ h => ⟨h, fun he _ => he⟩
  | cons i rest ih =>
    rintro cp hcp h
    obtain ⟨t, samples⟩ := i
    obtain ⟨hsr2, hstep, hstepeq⟩ := tiling_step cp t samples (hcp ▸ hsr)
    rw [hcp] at hsr2 hstep hstepeq
    simp only [ChunkProcessor.run]
    obtain ⟨ih1, ih2⟩ := ih (cp.process_audio t samples sr).2 hsr2 (hstep h)
    refine ⟨ih1, fun he hm => ?_⟩
    simp only [List.mem_cons, not_or] at hm
    exact ih2 (hstepeq he (Ne.symm hm.1)) hm.2

/-- C3 (amended): over any session driven from a fresh processor with a
positive sample rate, consecutively created chunks satisfy
`start_time + duration ≤` the next chunk's `start_time`, and the equality
(exact tiling) holds whenever no `Skip` decision occurred in the session.
A `Skip` discards its buffered audio and advances the next chunk's start
past the discarded span, so exact tiling across intervening Skips — as the
claim states it — fails (see the counterexample). -/

theorem chunk_tiling_C3 (sr : ℕ) (lang : Option (List Char))
    (strat : VadStrategy) (inputs : List (ℚ × List ℚ)) (hsr : 0 < sr) :
    List.Chain' (fun a b => a.start_time + a.duration ≤ b.start_time)
      (((ChunkProcessor.new sr lang strat).run sr inputs).2.chunks) ∧
    (SplitDecision.Skip ∉ ((ChunkProcessor.new sr lang strat).run sr inputs).1 →
      List.Chain' (fun a b => a.start_time + a.duration = b.start_time)
        (((ChunkProcessor.new sr lang strat).run sr inputs).2.chunks)) := by
  have hnew : TilingInv (ChunkProcessor.new sr lang strat) := by
    refine ⟨by simp [ChunkProcessor.new]; norm_num, by simp [ChunkProcessor.new], ?_⟩
    simp [ChunkProcessor.new]
  have hneweq : TilingInvEq (ChunkProcessor.new sr lang strat) := by
    refine ⟨by simp [ChunkProcessor.new]; norm_num, by simp [ChunkProcessor.new], ?_⟩
    simp [ChunkProcessor.new]
  obtain ⟨h1, h2⟩ := tiling_run sr hsr inputs (ChunkProcessor.new sr lang strat) rfl hnew
  exact ⟨h1.2.1, fun hm => (h2 hneweq hm).2.1⟩

/-- C3, refutation as stated: an 8-call session splitting a 6 s chunk,
skipping 3 s of silence-only audio, then splitting another 6 s chunk
creates chunks `[0.0, 6.0)` and `[9.0, 15.0)`: the earlier chunk's
`start_time + duration = 6` differs from the later chunk's
`start_time = 9`. -/
theorem chunk_tiling_C3_counterexample :
    ((ChunkProcessor.new 1 none VadStrategy.Normal).run 1 tilingCounterInputs).2.chunks =
      [⟨0, [1/20, 1/20, 1/20, 1/20, 0, 0], 0, 6⟩,
        ⟨1, [1/20, 1/20, 1/20, 1/20, 0, 0], 9, 6⟩] ∧
    ¬ List.Chain' (fun a b => a.start_time + a.duration = b.start_time)
      (((ChunkProcessor.new 1 none VadStrategy.Normal).run 1 tilingCounterInputs).2.chunks) := by
  have h : ((ChunkProcessor.new 1 none VadStrategy.Normal).run 1 tilingCounterInputs).2.chunks =
      [⟨0, [1/20, 1/20, 1/20, 1/20, 0, 0], 0, 6⟩,
        ⟨1, [1/20, 1/20, 1/20, 1/20, 0, 0], 9, 6⟩] := by
    with_unfolding_all decide
  refine ⟨h, ?_⟩
  rw [h]
  intro hch
  have := (List.chain'_cons.mp hch).1
  norm_num at this

theorem chunk_tiling_C3_witness :
    List.Chain' (fun a b => a.start_time + a.duration ≤ b.start_time)
      (((ChunkProcessor.new 1 none VadStrategy.Normal).run 1 tilingCounterInputs).2.chunks) ∧
    (SplitDecision.Skip ∉ ((ChunkProcessor.new 1 none VadStrategy.Normal).run 1 tilingCounterInputs).1 →
      List.Chain' (fun a b => a.start_time + a.duration = b.start_time)
        (((ChunkProcessor.new 1 none VadStrategy.Normal).run 1 tilingCounterInputs).2.chunks)) :=
  chunk_tiling_C3 1 none VadStrategy.Normal tilingCounterInputs (by norm_num)

/-- C1: on a frame whose RMS is below the silence threshold, once the
accumulated chunk duration (`chunk_samples / sample_rate`, including this
frame) has reached `min_chunk_duration` and the continuous silence has
reached the dynamic `required_silence_duration`, `process_audio` returns
`Split` exactly when the per-chunk speech ratio `speech_frames/total_frames`
exceeds 0.10 and `Skip` otherwise, and in both cases resets `chunk_samples`,
`speech_frames` and `total_frames` to zero. -/

theorem vad_silent_frame_decision_C1 (v : VoiceActivityDetector) (now : ℚ)
    (len : ℕ) (rmsSq : ℚ)
    (hrec : v.recording_started.isNone = false)
    (hsil : rmsSq < v.silence_threshold ^ 2)
    (hmin : v.min_chunk_duration ≤ ((v.chunk_samples + len : ℕ) : ℚ) / (v.sample_rate : ℚ))
    (hdur : v.get_dynamic_silence_threshold
        (((v.chunk_samples + len : ℕ) : ℚ) / (v.sample_rate : ℚ)) ≤
      now - (v.silence_started.getD now)) :
    (v.process_audio now len rmsSq).1 =
      (if (v.speech_frames : ℚ) / ((v.total_frames + 1 : ℕ) : ℚ) > 0.1
       then SplitDecision.Split else SplitDecision.Skip) ∧
    (v.process_audio now len rmsSq).2.chunk_samples = 0 ∧
    (v.process_audio now len rmsSq).2.speech_frames = 0 ∧
    (v.process_audio now len rmsSq).2.total_frames = 0 := by
  have hns : ¬ (rmsSq > v.silence_threshold ^ 2) := not_lt_of_gt hsil
  by_cases hr : (0.1 : ℚ) < (v.speech_frames : ℚ) / ((v.total_frames : ℚ) + 1)
  all_goals cases hss : v.silence_started with
  | none =>
    rw [hss, Option.getD_none] at hdur
    push_cast at hmin hdur
    simp only [VoiceActivityDetector.get_dynamic_silence_threshold, sub_self] at hdur
    simp [VoiceActivityDetector.process_audio, hrec, hns, hsil, hss,
      VoiceActivityDetector.contains_speech, VoiceActivityDetector.reset_chunk,
      VoiceActivityDetector.get_dynamic_silence_threshold, hmin, hdur, hr]
  | some t0 =>
    rw [hss, Option.getD_some] at hdur
    push_cast at hmin hdur
    simp only [VoiceActivityDetector.get_dynamic_silence_threshold] at hdur
    simp [VoiceActivityDetector.process_audio, hrec, hns, hsil, hss,
      VoiceActivityDetector.contains_speech, VoiceActivityDetector.reset_chunk,
      VoiceActivityDetector.get_dynamic_silence_threshold, hmin, hdur, hr]

theorem vad_silent_frame_decision_C1_witness :
    (vadC1state.process_audio 5 1 0).1 =
      (if (vadC1state.speech_frames : ℚ) / ((vadC1state.total_frames + 1 : ℕ) : ℚ) > 0.1
       then SplitDecision.Split else SplitDecision.Skip) ∧
    (vadC1state.process_audio 5 1 0).2.chunk_samples = 0 ∧
    (vadC1state.process_audio 5 1 0).2.speech_frames = 0 ∧
    (vadC1state.process_audio 5 1 0).2.total_frames = 0 :=
  vad_silent_frame_decision_C1 vadC1state 5 1 0 (by with_unfolding_all decide)
    (by with_unfolding_all decide) (by with_unfolding_all decide)
    (by with_unfolding_all decide)

/-- C2 (amended): a call whose accumulated chunk duration reaches
`max_chunk_duration` returns `Split` and resets the per-chunk counters,
provided the silence branch's `Skip` condition (silent frame, minimum
duration met, required silence met, speech ratio at most 0.10) does not
hold on the same frame — the silence branch runs before the max-duration
check, so on such a frame `Skip` is returned instead (see the
counterexample). -/

theorem vad_max_duration_C2 (v : VoiceActivityDetector) (now : ℚ)
    (len : ℕ) (rmsSq : ℚ)
    (hrec : v.recording_started.isNone = false)
    (hmax : v.max_chunk_duration ≤ ((v.chunk_samples + len : ℕ) : ℚ) / (v.sample_rate : ℚ))
    (hnoskip : ¬(rmsSq < v.silence_threshold ^ 2 ∧
      v.min_chunk_duration ≤ ((v.chunk_samples + len : ℕ) : ℚ) / (v.sample_rate : ℚ) ∧
      v.get_dynamic_silence_threshold
          (((v.chunk_samples + len : ℕ) : ℚ) / (v.sample_rate : ℚ)) ≤
        now - (v.silence_started.getD now) ∧
      ¬((0.1 : ℚ) < (v.speech_frames : ℚ) / ((v.total_frames : ℚ) + 1)))) :
    (v.process_audio now len rmsSq).1 = SplitDecision.Split ∧
    (v.process_audio now len rmsSq).2.chunk_samples = 0 ∧
    (v.process_audio now len rmsSq).2.speech_frames = 0 ∧
    (v.process_audio now len rmsSq).2.total_frames = 0 := by
  push_cast at hmax
  by_cases hsilent : rmsSq < v.silence_threshold ^ 2
  · have hns : ¬ (rmsSq > v.silence_threshold ^ 2) := not_lt_of_gt hsilent
    cases hss : v.silence_started with
    | none =>
      rw [hss] at hnoskip
      simp only [Option.getD_none] at hnoskip
      by_cases hcond : v.min_chunk_duration ≤
            ((v.chunk_samples + len : ℕ) : ℚ) / (v.sample_rate : ℚ) ∧
          v.get_dynamic_silence_threshold
              (((v.chunk_samples + len : ℕ) : ℚ) / (v.sample_rate : ℚ)) ≤ now - now
      · have hr : (0.1 : ℚ) < (v.speech_frames : ℚ) / ((v.total_frames : ℚ) + 1) := by
          by_contra hr
          exact hnoskip ⟨hsilent, hcond.1, hcond.2, hr⟩
        obtain ⟨hc1, hc2⟩ := hcond
        push_cast at hc1 hc2
        simp only [VoiceActivityDetector.get_dynamic_silence_threshold, sub_self] at hc2
        simp [VoiceActivityDetector.process_audio, hrec, hns, hsilent, hss,
          VoiceActivityDetector.contains_speech, VoiceActivityDetector.reset_chunk,
          VoiceActivityDetector.get_dynamic_silence_threshold, hc1, hc2, hr]
      · push_cast at hcond
        simp only [VoiceActivityDetector.get_dynamic_silence_threshold, sub_self] at hcond
        simp [VoiceActivityDetector.process_audio, hrec, hns, hsilent, hss,
          VoiceActivityDetector.reset_chunk,
          VoiceActivityDetector.get_dynamic_silence_threshold, hcond, hmax]
    | some t0 =>
      rw [hss] at hnoskip
      simp only [Option.getD_some] at hnoskip
      by_cases hcond : v.min_chunk_duration ≤
            ((v.chunk_samples + len : ℕ) : ℚ) / (v.sample_rate : ℚ) ∧
          v.get_dynamic_silence_threshold
              (((v.chunk_samples + len : ℕ) : ℚ) / (v.sample_rate : ℚ)) ≤ now - t0
      · have hr : (0.1 : ℚ) < (v.speech_frames : ℚ) / ((v.total_frames : ℚ) + 1) := by
          by_contra hr
          exact hnoskip ⟨hsilent, hcond.1, hcond.2, hr⟩
        obtain ⟨hc1, hc2⟩ := hcond
        push_cast at hc1 hc2
        simp only [VoiceActivityDetector.get_dynamic_silence_threshold] at hc2
        simp [VoiceActivityDetector.process_audio, hrec, hns, hsilent, hss,
          VoiceActivityDetector.contains_speech, VoiceActivityDetector.reset_chunk,
          VoiceActivityDetector.get_dynamic_silence_threshold, hc1, hc2, hr]
      · push_cast at hcond
        simp only [VoiceActivityDetector.get_dynamic_silence_threshold] at hcond
        simp [VoiceActivityDetector.process_audio, hrec, hns, hsilent, hss,
          VoiceActivityDetector.reset_chunk,
          VoiceActivityDetector.get_dynamic_silence_threshold, hcond, hmax]
  · by_cases hspeech : rmsSq > v.silence_threshold ^ 2 <;>
      simp [VoiceActivityDetector.process_audio, hrec, hsilent, hspeech,
        VoiceActivityDetector.reset_chunk, hmax]

/-- C2, refutation as stated: a 12-frame run of a fresh Normal-strategy
16 kHz VAD (29 s at threshold RMS, then eleven silent frames) reaches a
chunk duration of 30 s ≥ `max_chunk_duration` on its last frame, yet that
call returns `Skip` (the silence branch fires first), not `Split`. -/
theorem vad_max_duration_C2_counterexample :
    vadC2state.max_chunk_duration ≤
      ((vadC2state.chunk_samples + 8000 : ℕ) : ℚ) / (vadC2state.sample_rate : ℚ) ∧
    (vadC2state.process_audio 1.2 8000 0).1 = SplitDecision.Skip := by
  constructor
  · with_unfolding_all decide
  · with_unfolding_all decide

theorem vad_max_duration_C2_witness :
    (vadC2wit.process_audio 0 0 1).1 = SplitDecision.Split ∧
    (vadC2wit.process_audio 0 0 1).2.chunk_samples = 0 ∧
    (vadC2wit.process_audio 0 0 1).2.speech_frames = 0 ∧
    (vadC2wit.process_audio 0 0 1).2.total_frames = 0 :=
  vad_max_duration_C2 vadC2wit 0 0 1 (by with_unfolding_all decide)
    (by with_unfolding_all decide) (by with_unfolding_all decide)

/-- C4, refutation as stated: `filter_noise_text "Hello, (music) world"`
is not `"Hello, world"` (it is `"Hello,  world"`, with two spaces). -/

theorem filter_noise_text_C4_counterexample :
    filter_noise_text "Hello, (music) world".data ≠ "Hello, world".data := by
  with_unfolding_all decide

/-- C4 (amended): `filter_noise_text` strips the fixed bracketed
non-speech markers by exact substring removal and discards results that
are empty or punctuation/whitespace-only afterwards: on `"(music) "` it
returns the empty string; on `"Hello, (music) world"` it returns
`"Hello,  world"` — with the two spaces that surrounded the marker, since
exact substring removal does not collapse whitespace; and a non-empty
result is never punctuation/whitespace-only. -/

theorem filter_noise_text_C4 :
    filter_noise_text "(music) ".data = [] ∧
    filter_noise_text "Hello, (music) world".data = "Hello,  world".data ∧
    (∀ s : List Char, filter_noise_text s ≠ [] →
      ¬ is_punct_or_space_only (filter_noise_text s) = true) := by
  refine ⟨by with_unfolding_all decide, by with_unfolding_all decide, ?_⟩
  intro s hne
  unfold filter_noise_text at hne ⊢
  by_cases h : is_punct_or_space_only
      (trim (noise_patterns.foldl (fun acc pattern => remove_pattern pattern acc) s)) = true
  · simp [h] at hne
  · simp [h]

lemma find_overlap_le (acc nt : List Char) (max_k : ℕ) :
    ∀ n, find_overlap acc nt max_k n ≤ n := by
  intro n
  induction n with
  | zero => simp [find_overlap]
  | succ k ih =>
    unfold find_overlap
    split
    · exact le_refl _
    · exact le_trans ih (Nat.le_succ _)

lemma find_overlap_spec (acc nt : List Char) (max_k : ℕ) :
    ∀ n,
      (find_overlap acc nt max_k n = 0 ∨
        (find_overlap acc nt max_k n ≠ 0 ∧
          byteLen (nt.take (find_overlap acc nt max_k n)) ≤ max_k ∧
          (nt.take (find_overlap acc nt max_k n)).isSuffixOf acc)) ∧
      (∀ j, j ≤ n → j ≠ 0 → byteLen (nt.take j) ≤ max_k →
        (nt.take j).isSuffixOf acc → j ≤ find_overlap acc nt max_k n) := by
  intro n
  induction n with
  | zero =>
    refine ⟨Or.inl rfl, ?_⟩
    intro j hj hj0 _ _
    omega
  | succ k ih =>
    unfold find_overlap
    split
    · next hcond =>
      refine ⟨Or.inr ⟨Nat.succ_ne_zero _, hcond.1, hcond.2⟩, ?_⟩
      intro j hj _ _ _
      exact hj
    · next hcond =>
      refine ⟨ih.1, ?_⟩
      intro j hj hj0 hbl hsuf
      rcases Nat.lt_or_ge j (k + 1) with hlt | hge
      · exact ih.2 j (Nat.lt_succ_iff.mp hlt) hj0 hbl hsuf
      · exfalso
        have : j = k + 1 := le_antisymm hj hge
        subst this
        exact hcond ⟨hbl, hsuf⟩

/-- C5: `combine_results` appends each chunk's trimmed text to the
accumulator after removing the longest overlap, of at most
`min (byteLen acc) (min (byteLen text) 64)` bytes at a character-boundary
offset, between a suffix of the accumulator and a prefix of the text,
appending only the non-overlapping remainder (`k` below is maximal among
the qualifying overlaps); `combine_results` of `{text := "hello world"}`
alone is `"hello world"`, and of `[{text := "hello wor"}, {text := "world
foo"}]` is `"hello world foo"`. -/

theorem combine_overlap_C5 :
    (∀ acc next : List Char,
      trim next ≠ [] → str_contains acc (trim next) = false →
      ∃ k, k ≤ (trim next).length ∧
        merge_with_overlap acc next = acc ++ (trim next).drop k ∧
        (k = 0 ∨ (k ≠ 0 ∧
          byteLen ((trim next).take k) ≤
            min (byteLen acc) (min (byteLen (trim next)) 64) ∧
          ((trim next).take k).isSuffixOf acc)) ∧
        (∀ j, j ≤ (trim next).length → j ≠ 0 →
          byteLen ((trim next).take j) ≤
            min (byteLen acc) (min (byteLen (trim next)) 64) →
          ((trim next).take j).isSuffixOf acc → j ≤ k)) ∧
    combine_results [⟨0, "hello world".data, 0, 0, 0⟩] = "hello world".data ∧
    combine_results [⟨0, "hello wor".data, 0, 0, 0⟩, ⟨1, "world foo".data, 0, 0, 0⟩] =
      "hello world foo".data := by
  refine ⟨?_, by with_unfolding_all decide, by with_unfolding_all decide⟩
  intro acc next hne hc
  refine ⟨find_overlap acc (trim next)
    (min (byteLen acc) (min (byteLen (trim next)) 64)) (trim next).length,
    find_overlap_le _ _ _ _, ?_, ?_, ?_⟩
  · unfold merge_with_overlap
    simp [hne, hc]
  · exact (find_overlap_spec acc (trim next) _ (trim next).length).1
  · exact (find_overlap_spec acc (trim next) _ (trim next).length).2

/-- C6: during `combine_results`, a chunk whose trimmed text already
occurs verbatim in the accumulator contributes nothing, a chunk whose
trimmed text is empty is skipped, and `combine_results` of
`[{text := "abc def"}, {text := "def"}]` is exactly `"abc def"`. -/

theorem combine_duplicate_skip_C6 :
    (∀ acc next : List Char, trim next ≠ [] → str_contains acc (trim next) = true →
      merge_with_overlap acc next = acc) ∧
    (∀ acc next : List Char, trim next = [] → merge_with_overlap acc next = acc) ∧
    combine_results [⟨0, "abc def".data, 0, 0, 0⟩, ⟨1, "def".data, 0, 0, 0⟩] =
      "abc def".data := by
  refine ⟨?_, ?_, by with_unfolding_all decide⟩
  · intro acc next hne hc
    unfold merge_with_overlap
    simp [hne, hc]
  · intro acc next he
    unfold merge_with_overlap
    simp [he]

lemma mem_insert_by_id (r b : ChunkResult) :
    ∀ l : List ChunkResult, b ∈ insert_by_id r l ↔ b = r ∨ b ∈ l := by
  intro l
  induction l with
  | nil => simp [insert_by_id]
  | cons x xs ih =>
    unfold insert_by_id
    split
    · exact List.mem_cons
    · simp only [List.mem_cons, ih]
      tauto

lemma insert_by_id_sorted (r : ChunkResult) :
    ∀ l : List ChunkResult,
      List.Sorted (fun a b : ChunkResult => a.id ≤ b.id) l →
      List.Sorted (fun a b : ChunkResult => a.id ≤ b.id) (insert_by_id r l) := by
  intro l
  induction l with
  | nil => simp [insert_by_id]
  | cons x xs ih =>
    intro h
    rw [List.sorted_cons] at h
    unfold insert_by_id
    split
    · next hlt =>
      rw [List.sorted_cons]
      refine ⟨?_, List.sorted_cons.mpr h⟩
      intro b hb
      rcases List.mem_cons.mp hb with hbx | hbxs
      · exact hbx ▸ le_of_lt hlt
      · exact le_trans (le_of_lt hlt) (h.1 b hbxs)
    · next hge =>
      rw [List.sorted_cons]
      refine ⟨?_, ih h.2⟩
      intro b hb
      rcases (mem_insert_by_id r b xs).mp hb with hbr | hbxs
      · exact hbr ▸ le_of_not_lt hge
      · exact h.1 b hbxs

lemma sort_by_id_sorted :
    ∀ l : List ChunkResult,
      List.Sorted (fun a b : ChunkResult => a.id ≤ b.id) (sort_by_id l) := by
  intro l
  induction l with
  | nil => simp [sort_by_id]
  | cons x xs ih => exact insert_by_id_sorted x _ ih

lemma worker_step_sorted (transcribe : List ℚ → Option (List Char))
    (res : List ChunkResult) (c : AudioChunk)
    (h : List.Sorted (fun a b : ChunkResult => a.id ≤ b.id) res) :
    List.Sorted (fun a b : ChunkResult => a.id ≤ b.id)
      (worker_step transcribe res c) := by
  unfold worker_step
  split
  · exact h
  · split
    · exact h
    · exact sort_by_id_sorted _

lemma worker_foldl_sorted (transcribe : List ℚ → Option (List Char)) :
    ∀ (queue : List AudioChunk) (res : List ChunkResult),
      List.Sorted (fun a b : ChunkResult => a.id ≤ b.id) res →
      List.Sorted (fun a b : ChunkResult => a.id ≤ b.id)
        (queue.foldl (worker_step transcribe) res) := by
  intro queue
  induction queue with
  | nil => exact fun res h => h
  | cons c cs ih =>
    intro res h
    exact ih _ (worker_step_sorted transcribe res c h)

lemma finishFlush_results (cp : ChunkProcessor) (sr : ℕ) :
    (cp.finishFlush sr).results = cp.results := by
  unfold ChunkProcessor.finishFlush ChunkProcessor.create_and_send_chunk
  split
  · split
    · split
      · rfl
      · cases cp.tx <;> rfl
    · rfl
  · rfl

/-- C7: `finish` enqueues the remaining buffered audio as one final chunk
exactly when the buffer is non-empty and its RMS exceeds the 0.005 noise
floor; it closes the queue (drops the sender), joins the worker, and the
result list it returns is sorted by ascending id for every session —
whatever ids the queued chunks carry. -/

theorem finish_C7 (cp : ChunkProcessor)
    (transcribe : List ℚ → Option (List Char)) (sr : ℕ)
    (htx : cp.tx = some ())
    (hsorted : List.Sorted (fun a b : ChunkResult => a.id ≤ b.id) cp.results) :
    List.Sorted (fun a b : ChunkResult => a.id ≤ b.id)
      (cp.finish transcribe sr).1 ∧
    (cp.finish transcribe sr).2.tx = none ∧
    (cp.finish transcribe sr).2.worker_handle = none ∧
    ((cp.finishFlush sr).queue =
        cp.queue ++ [⟨cp.next_chunk_id, cp.current_buffer, cp.chunk_start_time,
          (cp.current_buffer.length : ℚ) / (sr : ℚ)⟩] ↔
      (cp.current_buffer ≠ [] ∧
        calculate_rms_sq cp.current_buffer > (0.005 : ℚ) ^ 2)) := by
  refine ⟨?_, rfl, rfl, ?_⟩
  · show List.Sorted _ ((cp.finishFlush sr).queue.foldl (worker_step transcribe)
      (cp.finishFlush sr).results)
    exact worker_foldl_sorted transcribe _ _ (finishFlush_results cp sr ▸ hsorted)
  · by_cases hb : cp.current_buffer = []
    · simp only [ChunkProcessor.finishFlush, hb]
      simp
    · by_cases hrms : calculate_rms_sq cp.current_buffer > (0.005 : ℚ) ^ 2
      · simp only [ChunkProcessor.finishFlush, hb, hrms]
        simp only [ne_eq, not_false_iff, if_true, if_pos]
        unfold ChunkProcessor.create_and_send_chunk
        rw [htx]
        simp [hb, ChunkProcessor.reset_buffer, hrms]
      · simp only [ChunkProcessor.finishFlush, hb, hrms]
        simp [hb, hrms]

theorem finish_C7_witness :
    List.Sorted (fun a b : ChunkResult => a.id ≤ b.id)
      (cpC7.finish (fun _ => some "hi".data) 1).1 ∧
    (cpC7.finish (fun _ => some "hi".data) 1).2.tx = none ∧
    (cpC7.finish (fun _ => some "hi".data) 1).2.worker_handle = none ∧
    ((cpC7.finishFlush 1).queue =
        cpC7.queue ++ [⟨cpC7.next_chunk_id, cpC7.current_buffer, cpC7.chunk_start_time,
          (cpC7.current_buffer.length : ℚ) / ((1 : ℕ) : ℚ)⟩] ↔
      (cpC7.current_buffer ≠ [] ∧
        calculate_rms_sq cpC7.current_buffer > (0.005 : ℚ) ^ 2)) :=
  finish_C7 cpC7 (fun _ => some "hi".data) 1 rfl List.sorted_nil

lemma watchdog_fire_inv (s : WatchdogState) (h : WatchdogInv s)
    (ht : s.auto_stop_triggered = false) : WatchdogInv (watchdog_fire s) := by
  refine ⟨fun hx => by simp [watchdog_fire] at hx, ?_⟩
  simp [watchdog_fire, h.1 ht]

lemma watchdog_update_silence_fields (thr : ℚ) (pcm : List ℚ)
    (s : WatchdogState) (nowt : ℚ) :
    (watchdog_update_silence thr pcm s nowt).auto_stop_triggered =
        s.auto_stop_triggered ∧
    (watchdog_update_silence thr pcm s nowt).auto_stop_callbacks =
        s.auto_stop_callbacks := by
  unfold watchdog_update_silence
  split
  · split <;> exact ⟨rfl, rfl⟩
  · exact ⟨rfl, rfl⟩

lemma watchdog_silence_trigger_inv (a thr : ℚ) (s : WatchdogState)
    (t : WatchdogTick) (h : WatchdogInv s) :
    WatchdogInv (watchdog_silence_trigger a thr s t) := by
  unfold watchdog_silence_trigger
  split
  · exact h
  · next pcm _ =>
    split
    · next hg =>
      have htf : s.auto_stop_triggered = false := by simpa using hg.1
      obtain ⟨hf1, hf2⟩ := watchdog_update_silence_fields thr pcm s t.now
      have hu : WatchdogInv (watchdog_update_silence thr pcm s t.now) :=
        ⟨fun _ => by rw [hf2]; exact h.1 htf, by rw [hf2]; exact h.2⟩
      split
      · exact hu
      · split
        · exact watchdog_fire_inv _ hu (by rw [hf1]; exact htf)
        · exact hu
    · exact h

lemma watchdog_max_trigger_inv (m : ℚ) (s : WatchdogState) (t : WatchdogTick)
    (h : WatchdogInv s) : WatchdogInv (watchdog_max_trigger m s t) := by
  unfold watchdog_max_trigger
  split
  · next hg =>
    split
    · exact watchdog_fire_inv _ h (by simpa using hg.1)
    · exact h
  · exact h

lemma watchdog_tick_inv (a m thr : ℚ) (s : WatchdogState) (t : WatchdogTick)
    (h : WatchdogInv s) : WatchdogInv (watchdog_tick a m thr s t) := by
  unfold watchdog_tick
  split
  · exact h
  · exact watchdog_max_trigger_inv m _ t (watchdog_silence_trigger_inv a thr s t h)

lemma watchdog_run_inv (a m thr : ℚ) (ticks : List WatchdogTick) :
    ∀ s : WatchdogState, WatchdogInv s →
      WatchdogInv (watchdog_run a m thr ticks s) := by
  induction ticks with
  | nil => exact fun s h => h
  | cons x xs ih =>
    intro s h
    exact ih _ (watchdog_tick_inv a m thr s x h)

/-- C8: during any single recording session the watchdog loop invokes the
auto-stop callback at most once: starting from the loop's initial state,
any sequence of iterations produces at most one callback invocation, the
one-shot `auto_stop_triggered` guard blocking both the silence trigger and
the max-duration trigger once either has fired. -/

theorem watchdog_one_shot_C8 (a m thr : ℚ) (ticks : List WatchdogTick) :
    (watchdog_run a m thr ticks watchdog_init).auto_stop_callbacks ≤ 1 :=
  (watchdog_run_inv a m thr ticks watchdog_init
    ⟨fun _ => rfl, by simp [watchdog_init]⟩).2

/-- C9, refutation as stated: passing 3.0 stores 3.0, outside the
0.0–2.0 range the claim asserts for every argument. -/

theorem set_input_gain_C9_counterexample :
    set_input_gain 3 = 3 ∧ ¬ (set_input_gain 3 ≤ 2) := by
  constructor
  · norm_num [set_input_gain]
  · norm_num [set_input_gain]

/-- C9 (amended): `set_input_gain` clamps the stored gain from below at
0.0 (`gain.max(0.0)`) but applies no upper clamp, so the stored gain is
within 0.0–2.0 exactly when the argument is at most 2.0 (the GUI callers
clamp to that range before calling). -/

theorem set_input_gain_C9 :
    ∀ gain : ℚ, 0 ≤ set_input_gain gain ∧ (gain ≤ 2 → set_input_gain gain ≤ 2) := by
  intro gain
  exact ⟨le_max_right _ _, fun h => max_le h (by norm_num)⟩

/-- C10: on a freshly constructed `ChunkProcessor`, `start_worker`
succeeds (the receiver `new` installed is present), and a second
`start_worker` on the resulting state panics with "Receiver already
taken" (the first call took the receiver). -/

theorem start_worker_C10 :
    (∀ (sr : ℕ) (lang : Option (List Char)) (strat : VadStrategy) (now : ℚ),
      ∃ cp', (ChunkProcessor.new sr lang strat).start_worker now = Except.ok cp') ∧
    (∀ (cp cp' : ChunkProcessor) (now now' : ℚ),
      cp.start_worker now = Except.ok cp' →
      cp'.start_worker now' = Except.error "Receiver already taken".data) := by
  constructor
  · intro sr lang strat now
    exact ⟨_, rfl⟩
  · intro cp cp' now now' h
    unfold ChunkProcessor.start_worker at h ⊢
    cases hrx : cp.rx with
    | none => rw [hrx] at h; cases h
    | some u =>
      rw [hrx] at h
      cases h
      rfl

end Hootvoice
